import Mathlib

/-!
# Verification of xt's input-capture machinery and translation pipeline

This file shallowly embeds the core of the `xt` serialized-format translator:
the `CaptureReader` (src/input.rs), the `FusedReader`, the `Handle`/`Ref`/`Input`
conversions, the format-detection ladder (src/lib.rs), the YAML probe's error
policy (src/yaml.rs) and the YAML output framing, and proves the specified
properties about them.

A reader source is modelled as a *script*: the list of responses the source
gives to the successive read calls made against it.  Each response is either an
I/O error or a list of bytes; a response's bytes are truncated to the request
size, and an exhausted script answers every further read with zero bytes (EOF).
Since the code under verification observes a source only through the responses
to its read calls, every interaction with a real `Read` implementation is
reproduced by some script.
-/

/-- The kinds of I/O error distinguished by the code (mirrors
`std::io::ErrorKind` restricted to what xt inspects). -/
inductive IoErrorKind where
  | invalidData
  | unexpectedEof
  | other
deriving DecidableEq

/-- An I/O error: a kind plus an opaque payload distinguishing errors,
so "propagated unchanged" is expressible as equality. -/
structure IoError where
  kind : IoErrorKind
  code : Nat
deriving DecidableEq

/-- One scripted response of a source reader: an error, or the bytes
returned by that read call. -/
abbrev Resp := Except IoError (List Nat)

instance : DecidableEq Resp := fun a b =>
  match a, b with
  | .ok x, .ok y =>
      if h : x = y then .isTrue (by rw [h]) else .isFalse (by simp [h])
  | .error x, .error y =>
      if h : x = y then .isTrue (by rw [h]) else .isFalse (by simp [h])
  | .ok _, .error _ => .isFalse (by simp)
  | .error _, .ok _ => .isFalse (by simp)

/-- One read call of `req` bytes against the scripted source: pops the next
response, truncating returned bytes to the request size; an exhausted script
behaves as a source at EOF (returns zero bytes). -/
def sourceRead : List Resp → Nat → Except IoError (List Nat) × List Resp
  | [], _ => (.ok [], [])
  | .error e :: rest, _ => (.error e, rest)
  | .ok bs :: rest, req => (.ok (bs.take req), rest)

/-- The state of `CaptureReader` (src/input.rs): the `prefix` cursor is split
into its underlying vector `prefixData` and its position `pos`; `script` is the
remaining source; `source_eof` mirrors the flag of the same name. -/
structure CaptureReader where
  prefixData : List Nat
  pos : Nat
  script : List Resp
  source_eof : Bool
deriving DecidableEq

namespace CaptureReader

/-- `CaptureReader::new`: empty capture, position 0, EOF flag clear. -/
def new (script : List Resp) : CaptureReader :=
  { prefixData := [], pos := 0, script := script, source_eof := false }

/-- `CaptureReader::captured`: all captured input from the beginning. -/
def captured (r : CaptureReader) : List Nat := r.prefixData

/-- `CaptureReader::captured_unread_size`: captured bytes at positions at or
past the current position. -/
def captured_unread_size (r : CaptureReader) : Nat :=
  r.prefixData.length - r.pos

/-- `CaptureReader::rewind`: set the cursor position to 0. -/
def rewind (r : CaptureReader) : CaptureReader := { r with pos := 0 }

/-- `CaptureReader::is_source_eof`. -/
def is_source_eof (r : CaptureReader) : Bool := r.source_eof

/-- `<CaptureReader as Read>::read` for a caller buffer of length `len`.
Returns the bytes delivered to the caller (the returned count is their length)
and the updated state.  First the unread captured bytes are copied; if the
buffer is full or captured-unread bytes remain the source is untouched.
Otherwise the remaining tail is read from the source and appended to the
capture via `write_all`; a `Cursor` write at a position past the end of its
vector zero-fills the gap, modelled by the `List.replicate` padding (empty in
every reachable state, where `pos ≤ prefixData.length`). -/
def read (r : CaptureReader) (len : Nat) :
    Except IoError (List Nat) × CaptureReader :=
  let prefix_size := min len r.captured_unread_size
  let out := (r.prefixData.drop r.pos).take prefix_size
  let r1 : CaptureReader := { r with pos := r.pos + prefix_size }
  if 0 < r1.captured_unread_size ∨ prefix_size = len then
    (.ok out, r1)
  else
    match sourceRead r1.script (len - prefix_size) with
    | (.error e, rest) => (.error e, { r1 with script := rest })
    | (.ok bs, rest) =>
        (.ok (out ++ bs),
         { prefixData :=
             r1.prefixData ++ List.replicate (r1.pos - r1.prefixData.length) 0 ++ bs,
           pos := r1.pos + bs.length,
           script := rest,
           source_eof := bs.isEmpty })

end CaptureReader

/-- `Read::read_to_end` against a scripted source: collects the bytes of
successive responses until a response of zero bytes (EOF) or an error; on an
error the bytes already read remain appended, per the `read_to_end` contract.
Returns (collected bytes, error if any, remaining script). -/
def sourceReadToEnd : List Resp → List Nat × Option IoError × List Resp
  | [] => ([], none, [])
  | .error e :: rest => ([], some e, rest)
  | .ok [] :: rest => ([], none, rest)
  | .ok (b :: bs) :: rest =>
      let t := sourceReadToEnd rest
      (b :: bs ++ t.1, t.2.1, t.2.2)

/-- `Take::read_to_end` with limit `limit` against a scripted source: requests
are clamped to the remaining limit, and reading stops when the limit is
exhausted, the source returns zero bytes, or an error occurs.  Returns
(collected bytes, error if any, remaining script, remaining limit). -/
def takeReadToEnd : List Resp → Nat → List Nat × Option IoError × List Resp × Nat
  | script, 0 => ([], none, script, 0)
  | [], limit + 1 => ([], none, [], limit + 1)
  | .error e :: rest, limit + 1 => ([], some e, rest, limit + 1)
  | .ok bs :: rest, limit + 1 =>
      let got := bs.take (limit + 1)
      if got.isEmpty then ([], none, rest, limit + 1)
      else
        let t := takeReadToEnd rest (limit + 1 - got.length)
        (got ++ t.1, t.2.1, t.2.2.1, t.2.2.2)

namespace CaptureReader

/-- `CaptureReader::capture_to_end`: unless already at source EOF, drain the
source into the capture buffer (appending at the end of the vector, leaving the
cursor position untouched) and set `source_eof` on success. -/
def capture_to_end (r : CaptureReader) : Except IoError Unit × CaptureReader :=
  if r.source_eof then (.ok (), r)
  else
    let t := sourceReadToEnd r.script
    let r1 := { r with prefixData := r.prefixData ++ t.1, script := t.2.2 }
    match t.2.1 with
    | none => (.ok (), { r1 with source_eof := true })
    | some e => (.error e, r1)

/-- `CaptureReader::capture_up_to_size`: if fewer than `size` bytes are
captured, request exactly the shortfall from the source through a bounded
`take`; if the bounded read ends with its limit unexhausted, the source hit
EOF, so set `source_eof`.  The cursor position is untouched. -/
def capture_up_to_size (r : CaptureReader) (size : Nat) :
    Except IoError Unit × CaptureReader :=
  let needed := size - r.prefixData.length
  if needed = 0 then (.ok (), r)
  else
    let t := takeReadToEnd r.script needed
    let r1 := { r with prefixData := r.prefixData ++ t.1, script := t.2.2.1 }
    match t.2.1 with
    | some e => (.error e, r1)
    | none =>
        if 0 < t.2.2.2 then (.ok (), { r1 with source_eof := true })
        else (.ok (), r1)

end CaptureReader

/-- One operation of the `CaptureReader` interface, for reasoning about
operation sequences. -/
inductive CaptureOp where
  | read (len : Nat)
  | rewind
  | captureToEnd
  | captureUpToSize (size : Nat)
deriving DecidableEq

/-- The state after one operation (results are discarded; errors leave the
reader usable, as a failed call does in the code). -/
def applyOp (r : CaptureReader) : CaptureOp → CaptureReader
  | .read len => (r.read len).2
  | .rewind => r.rewind
  | .captureToEnd => r.capture_to_end.2
  | .captureUpToSize n => (r.capture_up_to_size n).2

/-- The state after a sequence of operations. -/
def runOps (r : CaptureReader) : List CaptureOp → CaptureReader
  | [] => r
  | op :: ops => runOps (applyOp r op) ops

/-- Whether the bounded drain of `capture_up_to_size` observes the source
returning zero bytes to a non-empty request (including an exhausted script,
which answers every read with zero bytes). -/
def takeSawZeroRead : List Resp → Nat → Bool
  | _, 0 => false
  | [], _ + 1 => true
  | .error _ :: _, _ + 1 => false
  | .ok bs :: rest, limit + 1 =>
      let got := bs.take (limit + 1)
      if got.isEmpty then true
      else takeSawZeroRead rest (limit + 1 - got.length)

/-- Whether a `CaptureReader::read` of a `len`-byte buffer reaches the source
and receives zero bytes for its (necessarily non-empty) tail request. -/
def readSawZeroRead (r : CaptureReader) (len : Nat) : Bool :=
  let prefix_size := min len r.captured_unread_size
  let r1 : CaptureReader := { r with pos := r.pos + prefix_size }
  if 0 < r1.captured_unread_size ∨ prefix_size = len then false
  else
    match sourceRead r1.script (len - prefix_size) with
    | (.ok bs, _) => bs.isEmpty
    | (.error _, _) => false

/-- Whether an operation makes the source return zero bytes to a non-empty
request. -/
def opZeroRead (r : CaptureReader) : CaptureOp → Bool
  | .read len => readSawZeroRead r len
  | .rewind => false
  | .captureToEnd =>
      if r.source_eof then false
      else
        match (sourceReadToEnd r.script).2.1 with
        | none => true
        | some _ => false
  | .captureUpToSize n =>
      let needed := n - r.prefixData.length
      if needed = 0 then false else takeSawZeroRead r.script needed

/-- Whether an operation is a completed (non-failing) `capture_to_end`. -/
def opCaptureCompleted (r : CaptureReader) : CaptureOp → Bool
  | .captureToEnd =>
      match r.capture_to_end.1 with
      | .ok _ => true
      | .error _ => false
  | _ => false

/-- Whether, along an operation sequence, some operation either sees the
source answer a non-empty request with zero bytes or is a completed
`capture_to_end`. -/
def eofJustified : CaptureReader → List CaptureOp → Bool
  | _, [] => false
  | r, op :: ops =>
      opZeroRead r op || opCaptureCompleted r op || eofJustified (applyOp r op) ops

/-- The state of `FusedReader` (src/input.rs): `none` once the inner reader
has been dropped.  The inner reader is scripted like any source. -/
abbrev FusedState := Option (List Resp)

/-- `<FusedReader as Read>::read` for a caller buffer of length `len`:
forwards to the inner reader; on a zero-byte result for a non-empty buffer the
inner reader is dropped (the state becomes `none`) before the zero-length
result is returned; errors propagate with the inner reader retained. -/
def FusedReader.read (f : FusedState) (len : Nat) :
    Except IoError (List Nat) × FusedState :=
  match f with
  | none => (.ok [], none)
  | some script =>
      match sourceRead script len with
      | (.error e, rest) => (.error e, some rest)
      | (.ok bs, rest) =>
          if bs.isEmpty ∧ len ≠ 0 then (.ok [], none)
          else (.ok bs, some rest)

/-- A sequence of reads against a `FusedReader`, one per requested length;
returns the list of results and the final state. -/
def FusedReader.runReads : FusedState → List Nat → List (Except IoError (List Nat)) × FusedState
  | f, [] => ([], f)
  | f, len :: lens =>
      let s := FusedReader.read f len
      let t := FusedReader.runReads s.2 lens
      (s.1 :: t.1, t.2)

/-- A temporary reference to the input (`Ref`, src/input.rs). -/
inductive Ref where
  | slice (b : List Nat)
  | reader (r : CaptureReader)
deriving DecidableEq

/-- The input handle (`Handle`/`Source`, src/input.rs).  The
`GuardedCaptureReader` wrapper only forces a rewind before every borrow or
take; it is modelled by performing that rewind inside `borrow_mut` and
`intoInput`, its only access paths. -/
inductive Handle where
  | slice (b : List Nat)
  | reader (r : CaptureReader)
deriving DecidableEq

/-- `Handle::borrow_mut`: a slice is returned directly; a reader is rewound
(`rewind_and_borrow_mut`), and if its source is at EOF the ref is downgraded
to a slice over the captured buffer.  The pair carries the returned `Ref` and
the handle state after the call (a `Ref::reader` is a mutable borrow of that
state's capture reader). -/
def Handle.borrow_mut : Handle → Ref × Handle
  | .slice b => (.slice b, .slice b)
  | .reader r =>
      let r1 := r.rewind
      if r1.is_source_eof then (.slice r1.captured, .reader r1)
      else (.reader r1, .reader r1)

/-- The owned, one-shot input (`Input`, src/input.rs).  `Input::Reader` is
split into its two shapes: the raw source reader, and
`FusedReader(prefix cursor).chain(source)`. -/
inductive Input where
  | slice (b : List Nat)
  | rawReader (script : List Resp)
  | chainReader (prefixBytes : List Nat) (script : List Resp)
deriving DecidableEq

/-- `From<Handle> for Input`: rewind (`rewind_and_take`); at source EOF the
captured buffer becomes a slice input; with an empty capture the raw source is
surfaced; otherwise the captured prefix is chained in front of the source. -/
def Handle.intoInput : Handle → Input
  | .slice b => .slice b
  | .reader r0 =>
      let r := r0.rewind
      if r.is_source_eof then .slice r.captured
      else if r.captured.isEmpty then .rawReader r.script
      else .chainReader r.captured r.script

/-- Reading an owned `Input` to the end.  A slice yields its bytes.  A raw
reader drains its script.  For the chained shape, the `Cursor` (rewound to
position 0) yields the whole captured prefix, the `FusedReader` then reports
EOF and `Chain` switches to the source, which is drained; so the result is the
prefix followed by whatever `read_to_end` collects from the source. -/
def Input.readToEnd : Input → List Nat × Option IoError
  | .slice b => (b, none)
  | .rawReader script => ((sourceReadToEnd script).1, (sourceReadToEnd script).2.1)
  | .chainReader pre script =>
      (pre ++ (sourceReadToEnd script).1, (sourceReadToEnd script).2.1)

/-- The format set (`Format`, src/lib.rs). -/
inductive Format where
  | json
  | msgpack
  | toml
  | yaml
deriving DecidableEq

/-- `xt::Error` as far as the core distinguishes it: an I/O error or a
message (the `From<&str>` conversion used by `translate`). -/
inductive XtError where
  | io (e : IoError)
  | msg (s : String)
deriving DecidableEq

/-- `Format::detect` (src/lib.rs): probes MessagePack, JSON, YAML, TOML in
that order, returning the first match; a probe's I/O error aborts detection.
The probe bodies live in their format modules, so each probe is supplied as
its result on the borrowed input. -/
def Format.detect (pm pj py pt : Except IoError Bool) :
    Except IoError (Option Format) :=
  match pm with
  | .error e => .error e
  | .ok true => .ok (some .msgpack)
  | .ok false =>
    match pj with
    | .error e => .error e
    | .ok true => .ok (some .json)
    | .ok false =>
      match py with
      | .error e => .error e
      | .ok true => .ok (some .yaml)
      | .ok false =>
        match pt with
        | .error e => .error e
        | .ok true => .ok (some .toml)
        | .ok false => .ok none

/-- The format-selection step of `Translator::translate` (src/lib.rs): an
explicit `from` format is used as-is; otherwise the detected format is used,
and if detection yields no format the translation fails with
"unable to detect input format". -/
def Translator.translateFormat (fromFmt : Option Format)
    (pm pj py pt : Except IoError Bool) : Except XtError Format :=
  match fromFmt with
  | some f => .ok f
  | none =>
    match Format.detect pm pj py pt with
    | .error e => .error (.io e)
    | .ok (some f) => .ok f
    | .ok none => .error (.msg "unable to detect input format")

/-- A document produced by the YAML chunker, as far as the probe inspects it
(src/yaml.rs uses only `is_collection`). -/
structure YamlDoc where
  is_collection : Bool
deriving DecidableEq

namespace Yaml

/-- `yaml::input_matches` (src/yaml.rs), given the outcome of chunking the
first document: a successfully chunked document matches iff it is a
collection; a chunking error of kind `InvalidData` is converted to "not
matched"; any other error is returned; an empty stream does not match. -/
def input_matches (chunk : Option (Except IoError YamlDoc)) :
    Except IoError Bool :=
  match chunk with
  | some (.ok doc) => .ok doc.is_collection
  | some (.error err) =>
      if err.kind = IoErrorKind.invalidData then .ok false else .error err
  | none => .ok false

end Yaml

namespace YamlOutput

/-- `<yaml::Output as Output>::transcode_from` (src/yaml.rs), with the writer
modelled as the list of strings written so far and the serialized document
supplied by the external serializer: first `writeln!(w, "---")`, then the
document body. -/
def transcode_from (w : List String) (doc : String) : List String :=
  w ++ ["---\n", doc]

/-- Transcoding a sequence of documents to the YAML output. -/
def writeAll (w : List String) : List String → List String
  | [] => w
  | d :: ds => writeAll (transcode_from w d) ds

end YamlOutput

section SmokeTests

example :
    (CaptureReader.read (CaptureReader.new [.ok [1, 2, 3]]) 2).1 = .ok [1, 2] := by
  decide

example :
    ((CaptureReader.new [.ok [1, 2], .ok []]).capture_to_end).2.prefixData
      = [1, 2] := by
  decide

example :
    ((CaptureReader.new [.ok [9, 9, 9]]).capture_up_to_size 2).2.prefixData
      = [9, 9] := by
  decide

end SmokeTests

/-- C8: `rewind` sets the replay position to 0 and leaves the captured prefix
(and all other state) unchanged; consequently rewinding twice equals rewinding
once. -/
theorem captureReader_rewind_idempotent (r : CaptureReader) :
    r.rewind.pos = 0 ∧ r.rewind.prefixData = r.prefixData ∧
    r.rewind.script = r.script ∧ r.rewind.source_eof = r.source_eof ∧
    r.rewind.rewind = r.rewind :=
  ⟨rfl, rfl, rfl, rfl, rfl⟩

/-- C4: detection probes MessagePack, JSON, YAML, TOML in that fixed order and
returns the first format whose probe matches; when no probe matches and no
source format was given, translation fails with
"unable to detect input format". -/
theorem format_detect_order_and_failure :
    (∀ pj py pt, Format.detect (.ok true) pj py pt = .ok (some .msgpack)) ∧
    (∀ py pt, Format.detect (.ok false) (.ok true) py pt = .ok (some .json)) ∧
    (∀ pt, Format.detect (.ok false) (.ok false) (.ok true) pt
      = .ok (some .yaml)) ∧
    Format.detect (.ok false) (.ok false) (.ok false) (.ok true)
      = .ok (some .toml) ∧
    Format.detect (.ok false) (.ok false) (.ok false) (.ok false) = .ok none ∧
    (∀ pm pj py pt, Format.detect pm pj py pt = .ok none →
      Translator.translateFormat none pm pj py pt =
        .error (.msg "unable to detect input format")) := by
  refine ⟨fun _ _ _ => rfl, fun _ _ => rfl, fun _ => rfl, rfl, rfl, ?_⟩
  intro pm pj py pt h
  simp [Translator.translateFormat, h]

/-- Witness for C4: with all four probes answering "not matched", translation
without a source format fails with the detection error. -/
theorem format_detect_order_and_failure_witness :
    Translator.translateFormat none (.ok false) (.ok false) (.ok false)
      (.ok false) = .error (.msg "unable to detect input format") :=
  format_detect_order_and_failure.2.2.2.2.2 _ _ _ _ rfl

/-- C5: the YAML probe converts a chunking error of kind `InvalidData` into
"not matched" (so that detection proceeds to the next candidate), while an
error of any other kind is returned from the probe unchanged. -/
theorem yaml_probe_invalid_data_policy :
    (∀ e : IoError, e.kind = IoErrorKind.invalidData →
       Yaml.input_matches (some (.error e)) = .ok false) ∧
    (∀ e : IoError, e.kind ≠ IoErrorKind.invalidData →
       Yaml.input_matches (some (.error e)) = .error e) ∧
    (∀ e : IoError, e.kind = IoErrorKind.invalidData →
       Format.detect (.ok false) (.ok false)
         (Yaml.input_matches (some (.error e))) (.ok true)
         = .ok (some .toml)) := by
  refine ⟨?_, ?_, ?_⟩ <;> intro e h <;>
    simp [Yaml.input_matches, h, Format.detect]

/-- Witness for C5: an `InvalidData` chunking error yields "not matched", an
`Other`-kind error is surfaced unchanged. -/
theorem yaml_probe_invalid_data_policy_witness :
    Yaml.input_matches (some (.error ⟨IoErrorKind.invalidData, 7⟩))
      = .ok false ∧
    Yaml.input_matches (some (.error ⟨IoErrorKind.other, 7⟩))
      = .error ⟨IoErrorKind.other, 7⟩ :=
  ⟨yaml_probe_invalid_data_policy.1 _ rfl,
   yaml_probe_invalid_data_policy.2.1 _ (by decide)⟩

/-- C9: every document transcoded to the YAML output is preceded by a
`---` marker line with its newline, including the first document. -/
theorem yaml_output_document_marker :
    (∀ w docs, YamlOutput.writeAll w docs =
       w ++ (docs.map (fun d => ["---\n", d])).flatten) ∧
    (∀ d ds, YamlOutput.writeAll [] (d :: ds) =
       ["---\n", d] ++ (ds.map (fun d => ["---\n", d])).flatten) := by
  have main : ∀ docs w, YamlOutput.writeAll w docs =
      w ++ (docs.map (fun d => ["---\n", d])).flatten := by
    intro docs
    induction docs with
    | nil => intro w; simp [YamlOutput.writeAll]
    | cons d ds ih =>
        intro w
        simp [YamlOutput.writeAll, YamlOutput.transcode_from, ih]
  exact ⟨fun w docs => main docs w, fun d ds => by simpa using main (d :: ds) []⟩

/-- C7: a `FusedReader` forwards each read to its inner reader; when the inner
returns zero bytes for a non-empty request the inner reader is dropped and the
zero-length result returned; from the dropped state every further read returns
zero bytes forever. -/
theorem fusedReader_drops_inner_at_eof :
    (∀ script len bs rest, sourceRead script len = (.ok bs, rest) →
       FusedReader.read (some script) len =
         if bs = [] ∧ len ≠ 0 then (.ok [], none) else (.ok bs, some rest)) ∧
    (∀ lens, FusedReader.runReads none lens =
       (lens.map (fun _ => Except.ok []), none)) := by
  constructor
  · intro script len bs rest h
    simp only [FusedReader.read, h, List.isEmpty_iff]
  · intro lens
    induction lens with
    | nil => rfl
    | cons l ls ih => simp [FusedReader.runReads, FusedReader.read, ih]

/-- Witness for C7: the inner reader answering zero bytes to a 1-byte request
is dropped with a zero-length result; subsequent reads all return zero
bytes. -/
theorem fusedReader_drops_inner_at_eof_witness :
    FusedReader.read (some [Except.ok []]) 1 = (.ok [], none) ∧
    FusedReader.runReads none [1, 2] = ([Except.ok [], Except.ok []], none) := by
  constructor
  · have h := fusedReader_drops_inner_at_eof.1 [Except.ok []] 1 [] [] rfl
    simpa using h
  · exact fusedReader_drops_inner_at_eof.2 [1, 2]

/-- C10: an error from the inner reader is propagated unchanged and the inner
reader is retained for later reads; the inner reader is dropped exactly by a
successful zero-byte read of a non-empty buffer, never by an error or by a
zero-byte read of an empty buffer. -/
theorem fusedReader_error_keeps_inner :
    (∀ script len e rest, sourceRead script len = (.error e, rest) →
       FusedReader.read (some script) len = (.error e, some rest)) ∧
    (∀ script len, (FusedReader.read (some script) len).2 = none ↔
       ((sourceRead script len).1 = .ok [] ∧ 0 < len)) := by
  constructor
  · intro script len e rest h
    simp [FusedReader.read, h]
  · intro script len
    rcases hs : sourceRead script len with ⟨res, rest⟩
    cases res with
    | error e => simp [FusedReader.read, hs]
    | ok bs =>
        simp only [FusedReader.read, hs, List.isEmpty_iff]
        constructor
        · intro h
          by_cases hc : bs = [] ∧ len ≠ 0
          · exact ⟨by simp [hc.1], Nat.pos_of_ne_zero hc.2⟩
          · simp [hc] at h
        · rintro ⟨hb, hl⟩
          have hb' : bs = [] := by simpa using hb
          simp [hb', Nat.pos_iff_ne_zero.mp hl]

/-- Witness for C10: a 1-byte read whose inner reader fails propagates the
error and keeps the (advanced) inner reader. -/
theorem fusedReader_error_keeps_inner_witness :
    FusedReader.read (some [Except.error ⟨IoErrorKind.other, 3⟩]) 1
      = (.error ⟨IoErrorKind.other, 3⟩, some []) :=
  fusedReader_error_keeps_inner.1 _ 1 _ _ rfl

/-- C1: a read with a non-empty buffer (in a reachable state, where the cursor
position is within the capture) first copies from the unread captured bytes;
if the buffer is filled or captured-unread bytes remain, that is the whole
result and the source is untouched; otherwise the tail is read from the
source, the source's bytes are appended to the capture, `source_eof` is set
iff the source returned zero bytes to the non-empty tail request, and the
result is the prefix bytes followed by the source bytes. -/
theorem captureReader_read_correct (r : CaptureReader) (len : Nat)
    (hlen : 0 < len) (hwf : r.pos ≤ r.prefixData.length) :
    (len ≤ r.captured_unread_size →
       r.read len = (.ok ((r.prefixData.drop r.pos).take len),
                     { r with pos := r.pos + len })) ∧
    (r.captured_unread_size < len →
       ∀ bs rest,
         sourceRead r.script (len - r.captured_unread_size) = (.ok bs, rest) →
         r.read len =
           (.ok (r.prefixData.drop r.pos ++ bs),
            { prefixData := r.prefixData ++ bs,
              pos := r.pos + r.captured_unread_size + bs.length,
              script := rest,
              source_eof := bs.isEmpty })) := by
  constructor
  · intro hle
    have hmin : min len r.captured_unread_size = len := Nat.min_eq_left hle
    simp [CaptureReader.read, hmin]
  · intro hlt bs rest hs
    have hmin : min len r.captured_unread_size = r.captured_unread_size :=
      Nat.min_eq_right (Nat.le_of_lt hlt)
    have hpos : r.pos + r.captured_unread_size = r.prefixData.length := by
      simp [CaptureReader.captured_unread_size, Nat.add_sub_cancel' hwf]
    have hdrop : (r.prefixData.drop r.pos).length = r.captured_unread_size := by
      simp [CaptureReader.captured_unread_size]
    simp only [CaptureReader.read, hmin]
    rw [if_neg]
    · simp only [CaptureReader.captured_unread_size] at hs ⊢
      rw [hs]
      have htake : (r.prefixData.drop r.pos).take (r.prefixData.length - r.pos)
          = r.prefixData.drop r.pos := by
        apply List.take_of_length_le
        simp
      rw [htake]
      have hpad : r.pos + (r.prefixData.length - r.pos) - r.prefixData.length
          = 0 := by omega
      simp only [hpad, List.replicate_zero, List.append_nil, List.nil_append,
        List.append_assoc]
    · simp only [CaptureReader.captured_unread_size] at hlt ⊢
      push_neg
      constructor
      · omega
      · omega

/-- Witness for C1: a reader with captured bytes `[1, 2]`, one already
replayed, serving a 3-byte buffer: one captured byte is replayed, two bytes
come from the source and are appended to the capture. -/
theorem captureReader_read_correct_witness :
    CaptureReader.read ⟨[1, 2], 1, [Except.ok [5, 6, 7]], false⟩ 3
      = (.ok [2, 5, 6], ⟨[1, 2, 5, 6], 4, [], false⟩) := by
  have h := (captureReader_read_correct ⟨[1, 2], 1, [Except.ok [5, 6, 7]], false⟩
    3 (by decide) (by decide)).2 (by decide) [5, 6] [] rfl
  simpa using h

/-- C3: `borrow_mut` on a reader-backed handle rewinds first, so its result is
independent of the replay position any previous ref left behind; at source EOF
the ref is a slice over the entire captured buffer, otherwise it is the
capture reader rewound to position 0. -/
theorem handle_borrow_mut_rewinds (r : CaptureReader) :
    Handle.borrow_mut (.reader r)
      = Handle.borrow_mut (.reader { r with pos := 0 }) ∧
    (Handle.borrow_mut (.reader r)).1 =
      (if r.source_eof then Ref.slice r.prefixData
       else Ref.reader r.rewind) ∧
    r.rewind.pos = 0 := by
  refine ⟨?_, ?_, rfl⟩ <;> cases h : r.source_eof <;>
    simp [Handle.borrow_mut, CaptureReader.rewind, CaptureReader.is_source_eof,
      CaptureReader.captured, h]

/-- C6: converting a reader-backed handle into an owned input rewinds first
(the result is independent of the replay position); at source EOF the input is
a slice of the captured buffer, with an empty capture it is the raw source,
and otherwise it is the captured prefix chained in front of the source, whose
read-to-end yields the captured prefix followed by the remaining source
bytes. -/
theorem handle_into_input_spec (r : CaptureReader) :
    Handle.intoInput (.reader r) = Handle.intoInput (.reader r.rewind) ∧
    Handle.intoInput (.reader r) =
      (if r.source_eof then Input.slice r.prefixData
       else if r.prefixData.isEmpty then Input.rawReader r.script
       else Input.chainReader r.prefixData r.script) ∧
    (r.source_eof = false → r.prefixData.isEmpty = false →
       (Handle.intoInput (.reader r)).readToEnd =
         (r.prefixData ++ (sourceReadToEnd r.script).1,
          (sourceReadToEnd r.script).2.1)) := by
  refine ⟨?_, ?_, ?_⟩
  · simp [Handle.intoInput, CaptureReader.rewind]
  · cases h : r.source_eof <;>
      simp [Handle.intoInput, CaptureReader.rewind, CaptureReader.is_source_eof,
        CaptureReader.captured, h]
  · intro heof hne
    simp [Handle.intoInput, CaptureReader.rewind, CaptureReader.is_source_eof,
      CaptureReader.captured, heof, hne, Input.readToEnd]

/-- If the bounded drain of `capture_up_to_size` finishes without error but
with limit left over, the source answered some non-empty request with zero
bytes. -/
theorem takeReadToEnd_limit_left_saw_zero (script : List Resp) :
    ∀ limit, (takeReadToEnd script limit).2.1 = none →
      0 < (takeReadToEnd script limit).2.2.2 →
      takeSawZeroRead script limit = true := by
  induction script with
  | nil =>
      intro limit _ hl
      cases limit with
      | zero => simp [takeReadToEnd] at hl
      | succ n => simp [takeSawZeroRead]
  | cons resp rest ih =>
      intro limit herr hl
      cases limit with
      | zero => simp [takeReadToEnd] at hl
      | succ n =>
          cases resp with
          | error e => simp [takeReadToEnd] at herr
          | ok bs =>
              by_cases hg : (bs.take (n + 1)).isEmpty
              · simp [takeSawZeroRead, hg]
              · simp only [takeReadToEnd, hg, if_false, Bool.false_eq_true,
                  ite_false] at herr hl
                simp only [takeSawZeroRead, hg, Bool.false_eq_true, ite_false]
                exact ih _ herr hl

/-- Any single operation that leaves `source_eof` set either found it already
set, observed the source answer a non-empty request with zero bytes, or is a
completed `capture_to_end`. -/
theorem applyOp_eof_source (r : CaptureReader) (op : CaptureOp) :
    (applyOp r op).source_eof = true →
    r.source_eof = true ∨ opZeroRead r op = true ∨
      opCaptureCompleted r op = true := by
  cases op with
  | rewind => intro h; exact Or.inl h
  | read len =>
      intro h
      simp only [applyOp, CaptureReader.read] at h
      simp only [opZeroRead, readSawZeroRead, opCaptureCompleted]
      split at h
      next hcond =>
        exact Or.inl (by simpa using h)
      next hcond =>
        rw [if_neg hcond]
        split at h
        next e rest heq =>
          exact Or.inl (by simpa using h)
        next bs rest heq =>
          rw [heq]
          exact Or.inr (Or.inl (by simpa using h))
  | captureToEnd =>
      intro h
      by_cases he : r.source_eof = true
      · exact Or.inl he
      · rcases ht : sourceReadToEnd r.script with ⟨bs, err, rest⟩
        cases err with
        | none =>
            right; right
            simp [opCaptureCompleted, CaptureReader.capture_to_end, he, ht]
        | some e =>
            left
            simp [applyOp, CaptureReader.capture_to_end, he, ht] at h
  | captureUpToSize n =>
      intro h
      by_cases hn : n - r.prefixData.length = 0
      · left
        simpa [applyOp, CaptureReader.capture_up_to_size, hn] using h
      · rcases ht : takeReadToEnd r.script (n - r.prefixData.length)
          with ⟨bs, err, rest, lim⟩
        cases err with
        | some e =>
            left
            simpa [applyOp, CaptureReader.capture_up_to_size, hn, ht] using h
        | none =>
            by_cases hl : 0 < lim
            · right; left
              simp only [opZeroRead, hn, if_false, ite_false]
              apply takeReadToEnd_limit_left_saw_zero
              · simp [ht]
              · simp [ht, hl]
            · left
              simpa [applyOp, CaptureReader.capture_up_to_size, hn, ht, hl]
                using h

/-- Along any operation sequence, `source_eof` can only become set through a
zero-byte source read or a completed `capture_to_end`. -/
theorem runOps_eof_source (ops : List CaptureOp) :
    ∀ r : CaptureReader, (runOps r ops).source_eof = true →
      r.source_eof = true ∨ eofJustified r ops = true := by
  induction ops with
  | nil => intro r h; exact Or.inl h
  | cons op ops ih =>
      intro r h
      rcases ih (applyOp r op) h with h1 | h1
      · rcases applyOp_eof_source r op h1 with h2 | h2 | h2
        · exact Or.inl h2
        · right; simp [eofJustified, h2]
        · right; simp [eofJustified, h2]
      · right; simp [eofJustified, h1]

/-- C2: starting from a fresh `CaptureReader`, after any sequence of `read`,
`rewind`, `capture_to_end` and `capture_up_to_size` operations, `source_eof`
is set only if some operation observed the source answer a non-empty request
with zero bytes, or some `capture_to_end` completed; no other operation sets
it. -/
theorem captureReader_eof_only_justified (script : List Resp)
    (ops : List CaptureOp)
    (h : (runOps (CaptureReader.new script) ops).source_eof = true) :
    eofJustified (CaptureReader.new script) ops = true := by
  rcases runOps_eof_source ops (CaptureReader.new script) h with h1 | h1
  · simp [CaptureReader.new] at h1
  · exact h1

/-- Witness for C2: a source that immediately reports EOF; a single 1-byte
read sets `source_eof`, and the trace indeed contains a zero-byte source
read. -/
theorem captureReader_eof_only_justified_witness :
    (runOps (CaptureReader.new [Except.ok []]) [CaptureOp.read 1]).source_eof
      = true ∧
    eofJustified (CaptureReader.new [Except.ok []]) [CaptureOp.read 1]
      = true :=
  ⟨by decide, captureReader_eof_only_justified _ _ (by decide)⟩

/-- Witness for C6: a non-EOF reader with captured prefix `[5]` and a source
that still yields `[7]`; reading the owned chained input to the end produces
`[5, 7]` with no error. -/
theorem handle_into_input_spec_witness :
    (Handle.intoInput
        (.reader ⟨[5], 0, [Except.ok [7], Except.ok []], false⟩)).readToEnd
      = ([5, 7], none) := by
  have h := (handle_into_input_spec
    ⟨[5], 0, [Except.ok [7], Except.ok []], false⟩).2.2 rfl rfl
  simpa using h
